import Mathlib

/-!
Verification of the printer capture/extraction pipeline.

Shallow embedding of the repository's Python sources:
  * `src/scripts/capture_prints.py` (job segmenter loop, `main` / `save_buffer`)
  * `src/app.py`                    (the near-duplicate `capture_prints_job` loop)
  * `src/scripts/extract_string.py` (`detect_format`, `convert_escpos`,
                                     `convert_postscript`, `convert_rawtext`,
                                     `process_file`)
  * `src/utility/escpos_converter.py`, `src/utility/postscript_converter.py`,
    `src/utility/rawtext_converter.py`

Bytes and decoded characters are modelled as `Nat` (the `latin-1` codec maps
byte `b` to code point `b`, so `decode('latin-1')` is the identity on the
byte list).  Time is modelled in integer milliseconds: the source constants
`JOB_COMPLETION_TIMEOUT = 3.0` seconds and the queue poll timeout `1.0`
second become `3000` and `1000`.
-/

/-- Character codes of a string literal; used only to write expected outputs
and fixed messages readably. -/
def strCodes (s : String) : List Nat :=
  s.toList.map (fun c => c.toNat)

/-- Python `str.isspace` / the character set removed by `str.strip()`:
ASCII whitespace, the separator control characters 0x1C-0x1F, and the
Unicode whitespace code points reachable from decoded text. -/
def pySpace (c : Nat) : Bool :=
  decide (9 ≤ c ∧ c ≤ 13) || decide (28 ≤ c ∧ c ≤ 31) || c == 32 ||
  c == 0x85 || c == 0xA0 || c == 0x1680 || decide (0x2000 ≤ c ∧ c ≤ 0x200A) ||
  c == 0x2028 || c == 0x2029 || c == 0x202F || c == 0x205F || c == 0x3000

/-- Python `str.strip()`: drop leading and trailing whitespace characters. -/
def pyStrip (l : List Nat) : List Nat :=
  ((l.dropWhile pySpace).reverse.dropWhile pySpace).reverse

/-- Format tags returned by `extract_string.detect_format`. -/
inductive Format where
  | escpos
  | postscript
  | rawtext
deriving DecidableEq, Repr

/-- Byte sequence `b'%!PS'`. -/
def psMagic : List Nat := [37, 33, 80, 83]

/-- Embedding of `extract_string.detect_format` (lines 16-34): inspect the
first 1024 bytes; `%!PS` present (as a prefix or anywhere) gives PostScript,
else an ESC byte (0x1B) gives ESC/POS, else raw text. -/
def detect_format (data : List Nat) : Format :=
  let header := data.take 1024
  if psMagic <+: header ∨ psMagic <:+: header then Format.postscript
  else if 27 ∈ header then Format.escpos
  else Format.rawtext

/-- Embedding of the `try`/`except` wrapper around the file read in
`detect_format`: a read error (`Except.error`) falls back to raw text. -/
def detect_format_checked : Except (List Nat) (List Nat) → Format
  | Except.error _ => Format.rawtext
  | Except.ok data => detect_format data

theorem detect_format_take (data : List Nat) :
    detect_format data = detect_format (data.take 1024) := by
  simp [detect_format, List.take_take]

/-- C3: the format classifier is a total function on byte sequences: it
returns exactly one of the three formats, inspects only the first 1024
bytes, maps any prefix containing `%!PS` to PostScript (even if 0x1B also
occurs), otherwise any prefix containing 0x1B to ESC/POS, otherwise (and on
any read error) to raw text. -/
theorem claim3_classifier_total (data : List Nat) (e : List Nat) :
    (detect_format data = Format.postscript ∨ detect_format data = Format.escpos ∨
      detect_format data = Format.rawtext) ∧
    detect_format data = detect_format (data.take 1024) ∧
    (psMagic <:+: data.take 1024 → detect_format data = Format.postscript) ∧
    (¬ psMagic <:+: data.take 1024 → 27 ∈ data.take 1024 →
      detect_format data = Format.escpos) ∧
    (¬ psMagic <:+: data.take 1024 → 27 ∉ data.take 1024 →
      detect_format data = Format.rawtext) ∧
    detect_format_checked (Except.error e) = Format.rawtext := by
  refine ⟨?_, detect_format_take data, ?_, ?_, ?_, rfl⟩
  · simp only [detect_format]
    split
    · exact Or.inl rfl
    · split
      · exact Or.inr (Or.inl rfl)
      · exact Or.inr (Or.inr rfl)
  · intro h
    have : psMagic <+: data.take 1024 ∨ psMagic <:+: data.take 1024 := Or.inr h
    simp [detect_format, this]
  · intro h1 h2
    have hnp : ¬ psMagic <+: data.take 1024 := fun hp => h1 hp.isInfix
    simp [detect_format, hnp, h1, h2]
  · intro h1 h2
    have hnp : ¬ psMagic <+: data.take 1024 := fun hp => h1 hp.isInfix
    simp [detect_format, hnp, h1, h2]

/-- Witness for C3: `%!PS` with a later ESC byte classifies as PostScript,
and an ESC byte without `%!PS` classifies as ESC/POS. -/
theorem claim3_classifier_total_witness :
    detect_format [37, 33, 80, 83, 27] = Format.postscript ∧
    detect_format [72, 27, 64] = Format.escpos := by
  constructor
  · exact (claim3_classifier_total [37, 33, 80, 83, 27] []).2.2.1 (by decide)
  · exact (claim3_classifier_total [72, 27, 64] []).2.2.2.1 (by decide) (by decide)

/-! ### Job segmenter (capture_prints.py `main`, app.py `capture_prints_job`)

The consumer loop repeatedly calls `data_queue.get(timeout=1.0)`.  We model
one loop iteration by one `Event`:

  * `Event.data c t`  — `get` returned chunk `c`, delivered at time `t`
                        (`time.time()` at the moment it is processed);
  * `Event.poll t`    — `get` raised `queue.Empty` at time `t` (the 1.0 s
                        timeout expired with nothing queued);
  * `Event.eos`       — `get` returned the reader's `None` sentinel.

Times are milliseconds.  Loop-body execution is treated as instantaneous,
so after an iteration finishing at time `t` the next `get` starts at `t`
and, if nothing arrives, raises `Empty` at `t + 1000`. -/

/-- Timeout constant: `JOB_COMPLETION_TIMEOUT = 3.0` seconds, in ms. -/
def JOB_COMPLETION_TIMEOUT : Nat := 3000

/-- Poll interval: `data_queue.get(timeout=1.0)`, in ms. -/
def POLL_INTERVAL : Nat := 1000

inductive Event where
  | data (chunk : List Nat) (t : Nat)
  | poll (t : Nat)
  | eos
deriving DecidableEq, Repr

/-- Consumer-loop state: the accumulation `buffer` and `last_data_time`
(`none` models Python's `None`). -/
structure SegState where
  buffer : List Nat
  lastDataTime : Option Nat
deriving DecidableEq, Repr

/-- Embedding of `capture_prints.save_buffer` (lines 40-44) restricted to
what it emits towards the job store: an empty buffer is not saved
(`if not buffer: return`), a non-empty buffer is written as one job. -/
def save_buffer (buffer : List Nat) : List (List Nat) :=
  if buffer = [] then [] else [buffer]

/-- One non-`eos` iteration of `capture_prints.main` (lines 139-164).
On data: extend the buffer, set `last_data_time`.  On `queue.Empty`:
flush when `buffer and last_data_time and (now - last_data_time >
JOB_COMPLETION_TIMEOUT)` (the Nat comparison `T + timeout < t` is the
real-number `t - T > timeout`); the flush saves the buffer and resets
both state fields. -/
def captureStep (s : SegState) : Event → SegState × List (List Nat)
  | Event.data c t => (⟨s.buffer ++ c, some t⟩, [])
  | Event.poll t =>
    match s.lastDataTime with
    | some T =>
      if s.buffer ≠ [] ∧ T + JOB_COMPLETION_TIMEOUT < t then
        (⟨[], none⟩, save_buffer s.buffer)
      else (s, [])
    | none => (s, [])
  | Event.eos => (s, [])

/-- One non-`eos` iteration of `app.capture_prints_job` (lines 68-84).
Identical except the timeout test is `last_data_time and (time.time() -
last_data_time > JOB_COMPLETION_TIMEOUT)` — it does not test the buffer —
and its `save_buffer` clears the buffer (when non-empty) and always resets
`last_data_time`. -/
def appStep (s : SegState) : Event → SegState × List (List Nat)
  | Event.data c t => (⟨s.buffer ++ c, some t⟩, [])
  | Event.poll t =>
    match s.lastDataTime with
    | some T =>
      if T + JOB_COMPLETION_TIMEOUT < t then
        (⟨[], none⟩, save_buffer s.buffer)
      else (s, [])
    | none => (s, [])
  | Event.eos => (s, [])

/-- Run the consumer loop over a list of events, collecting the jobs
flushed to the job store in order.  On the `None` sentinel both loops do
`if buffer: save_buffer(...)` and `break`, so later events are ignored. -/
def runSeg (step : SegState → Event → SegState × List (List Nat)) :
    SegState → List Event → List (List Nat)
  | _, [] => []
  | s, Event.eos :: _ => save_buffer s.buffer
  | s, Event.data c t :: rest =>
    (step s (Event.data c t)).2 ++ runSeg step (step s (Event.data c t)).1 rest
  | s, Event.poll t :: rest =>
    (step s (Event.poll t)).2 ++ runSeg step (step s (Event.poll t)).1 rest

/-- States at the start of each loop iteration (the trace of the run). -/
def runStates (step : SegState → Event → SegState × List (List Nat)) :
    SegState → List Event → List SegState
  | s, [] => [s]
  | s, e :: rest => s :: runStates step (step s e).1 rest

/-- Times at which `queue.get` raises `Empty` while the consumer waits from
time `T` for the next queue item arriving at time `a`: polls fire at
`T + 1000, T + 2000, ...` strictly before `a` (an item arriving exactly at
a poll deadline is delivered, not timed out). -/
def pollTimes (T a : Nat) : List Nat :=
  (List.range ((a - T - 1) / POLL_INTERVAL)).map
    (fun k => T + POLL_INTERVAL * (k + 1))

/-- Events generated by a timed chunk schedule: for each chunk `(c, a)`
the `Empty` timeouts while waiting for it, then its delivery.  The first
argument is the time the wait starts (the previous delivery time). -/
def genChunks : Nat → List (List Nat × Nat) → List Event
  | _, [] => []
  | T, (c, a) :: rest =>
    (pollTimes T a).map Event.poll ++ Event.data c a :: genChunks a rest

/-- Delivery time of the last chunk (or the start time if there is none). -/
def lastTime : Nat → List (List Nat × Nat) → Nat
  | T, [] => T
  | _, (_, a) :: rest => lastTime a rest

/-- Full event schedule: the chunks, then the timeouts while waiting for
the reader's `None` sentinel enqueued at `eosT`, then the sentinel. -/
def genEvents (chunks : List (List Nat × Nat)) (eosT : Nat) : List Event :=
  genChunks 0 chunks ++
    (pollTimes (lastTime 0 chunks) eosT).map Event.poll ++ [Event.eos]

/-- Concatenation of the chunk payloads in arrival order. -/
def bytesOf : List (List Nat × Nat) → List Nat
  | [] => []
  | (c, _) :: rest => c ++ bytesOf rest

/-- Jobs flushed by `capture_prints.main` on a timed chunk schedule. -/
def captureJobs (chunks : List (List Nat × Nat)) (eosT : Nat) : List (List Nat) :=
  runSeg captureStep ⟨[], none⟩ (genEvents chunks eosT)

/-- Jobs flushed by `app.capture_prints_job` on a timed chunk schedule. -/
def appJobs (chunks : List (List Nat × Nat)) (eosT : Nat) : List (List Nat) :=
  runSeg appStep ⟨[], none⟩ (genEvents chunks eosT)

/-- The loop-body facts shared by `captureStep` and `appStep` that the run
lemmas use: data extends the buffer; an `Empty` at or before
`last_data_time + timeout` changes nothing; an `Empty` strictly after it
with a non-empty buffer flushes exactly that buffer; no step ever emits an
empty job. -/
structure StepOK (step : SegState → Event → SegState × List (List Nat)) : Prop where
  data_eq : ∀ s c t, step s (Event.data c t) = (⟨s.buffer ++ c, some t⟩, [])
  poll_none : ∀ s t, s.lastDataTime = none → step s (Event.poll t) = (s, [])
  poll_small : ∀ s T t, s.lastDataTime = some T → t ≤ T + JOB_COMPLETION_TIMEOUT →
    step s (Event.poll t) = (s, [])
  poll_big : ∀ s T t, s.lastDataTime = some T → T + JOB_COMPLETION_TIMEOUT < t →
    s.buffer ≠ [] → step s (Event.poll t) = (⟨[], none⟩, [s.buffer])
  out_no_nil : ∀ s e, [] ∉ (step s e).2

theorem nil_not_mem_save_buffer (b : List Nat) : [] ∉ save_buffer b := by
  by_cases hb : b = []
  · simp [save_buffer, hb]
  · simp only [save_buffer, if_neg hb, List.mem_singleton]
    exact fun h => hb h.symm

theorem captureStep_ok : StepOK captureStep where
  data_eq := fun _ _ _ => rfl
  poll_none := by
    intro s t hs; simp [captureStep, hs]
  poll_small := by
    intro s T t hs hle
    simp [captureStep, hs, Nat.not_lt_of_le hle]
  poll_big := by
    intro s T t hs hlt hb
    simp [captureStep, hs, hlt, hb, save_buffer]
  out_no_nil := by
    intro s e
    cases e with
    | data c t => simp [captureStep]
    | eos => simp [captureStep]
    | poll t =>
      rcases hs : s.lastDataTime with _ | T
      · simp [captureStep, hs]
      · by_cases hcond : s.buffer ≠ [] ∧ T + JOB_COMPLETION_TIMEOUT < t
        · simp only [captureStep, hs]
          rw [if_pos hcond]
          exact nil_not_mem_save_buffer s.buffer
        · simp [captureStep, hs, hcond]

theorem appStep_ok : StepOK appStep where
  data_eq := fun _ _ _ => rfl
  poll_none := by
    intro s t hs; simp [appStep, hs]
  poll_small := by
    intro s T t hs hle
    simp [appStep, hs, Nat.not_lt_of_le hle]
  poll_big := by
    intro s T t hs hlt hb
    simp [appStep, hs, hlt, hb, save_buffer]
  out_no_nil := by
    intro s e
    cases e with
    | data c t => simp [appStep]
    | eos => simp [appStep]
    | poll t =>
      rcases hs : s.lastDataTime with _ | T
      · simp [appStep, hs]
      · by_cases hcond : T + JOB_COMPLETION_TIMEOUT < t
        · simp only [appStep, hs]
          rw [if_pos hcond]
          exact nil_not_mem_save_buffer s.buffer
        · simp [appStep, hs, hcond]

theorem runSeg_no_nil {step : SegState → Event → SegState × List (List Nat)}
    (h : StepOK step) : ∀ (events : List Event) (s : SegState),
    [] ∉ runSeg step s events := by
  intro events
  induction events with
  | nil => intro s; simp [runSeg]
  | cons e rest ih =>
    intro s
    cases e with
    | eos => exact nil_not_mem_save_buffer s.buffer
    | data c t =>
      simp only [runSeg, List.mem_append]
      rintro (hmem | hmem)
      · exact h.out_no_nil s (Event.data c t) hmem
      · exact ih _ hmem
    | poll t =>
      simp only [runSeg, List.mem_append]
      rintro (hmem | hmem)
      · exact h.out_no_nil s (Event.poll t) hmem
      · exact ih _ hmem

/-- C4: on `EndOfStream` with a non-empty buffer, both loop variants flush
exactly that buffer as a final job and stop; with an empty buffer they
flush nothing; and no run of either loop ever writes an empty job. -/
theorem claim4_eos_flush (s : SegState) (rest events : List Event) :
    (s.buffer ≠ [] → runSeg captureStep s (Event.eos :: rest) = [s.buffer] ∧
      runSeg appStep s (Event.eos :: rest) = [s.buffer]) ∧
    (s.buffer = [] → runSeg captureStep s (Event.eos :: rest) = [] ∧
      runSeg appStep s (Event.eos :: rest) = []) ∧
    [] ∉ runSeg captureStep s events ∧ [] ∉ runSeg appStep s events := by
  refine ⟨?_, ?_, runSeg_no_nil captureStep_ok events s, runSeg_no_nil appStep_ok events s⟩
  · intro hb
    constructor <;> simp [runSeg, save_buffer, hb]
  · intro hb
    constructor <;> simp [runSeg, save_buffer, hb]

/-- Witness for C4 at a concrete state: a one-byte buffer is flushed as the
final job, an empty buffer is not. -/
theorem claim4_eos_flush_witness :
    runSeg captureStep ⟨[72], some 0⟩ [Event.eos] = [[72]] ∧
    runSeg appStep ⟨[], none⟩ [Event.eos] = [] := by
  constructor
  · exact ((claim4_eos_flush ⟨[72], some 0⟩ [] []).1 (by decide)).1
  · exact ((claim4_eos_flush ⟨[], none⟩ [] []).2.1 rfl).2

/-- The C10 state invariant: `last_data_time` is set exactly when the
buffer is non-empty. -/
def SegInv (s : SegState) : Prop := s.buffer = [] ↔ s.lastDataTime = none

theorem captureStep_inv (s : SegState) (e : Event)
    (hs : SegInv s) (hc : ∀ c t, e = Event.data c t → c ≠ []) :
    SegInv (captureStep s e).1 := by
  cases e with
  | data c t =>
    have hc' : c ≠ [] := hc c t rfl
    simp [captureStep, SegInv, hc']
  | eos => exact hs
  | poll t =>
    rcases hmatch : s.lastDataTime with _ | T
    · simpa [captureStep, hmatch] using hs
    · by_cases hcond : s.buffer ≠ [] ∧ T + JOB_COMPLETION_TIMEOUT < t
      · simp only [captureStep, hmatch]
        rw [if_pos hcond]
        simp [SegInv]
      · simpa [captureStep, hmatch, hcond] using hs

theorem appStep_inv (s : SegState) (e : Event)
    (hs : SegInv s) (hc : ∀ c t, e = Event.data c t → c ≠ []) :
    SegInv (appStep s e).1 := by
  cases e with
  | data c t =>
    have hc' : c ≠ [] := hc c t rfl
    simp [appStep, SegInv, hc']
  | eos => exact hs
  | poll t =>
    rcases hmatch : s.lastDataTime with _ | T
    · simpa [appStep, hmatch] using hs
    · by_cases hcond : T + JOB_COMPLETION_TIMEOUT < t
      · simp only [appStep, hmatch]
        rw [if_pos hcond]
        simp [SegInv]
      · simpa [appStep, hmatch, hcond] using hs

theorem runStates_inv {step : SegState → Event → SegState × List (List Nat)}
    (hstep : ∀ s e, SegInv s → (∀ c t, e = Event.data c t → c ≠ []) →
      SegInv (step s e).1) :
    ∀ (events : List Event) (s : SegState), SegInv s →
    (∀ c t, Event.data c t ∈ events → c ≠ []) →
    ∀ s' ∈ runStates step s events, SegInv s' := by
  intro events
  induction events with
  | nil =>
    intro s hs _ s' hmem
    simp only [runStates, List.mem_singleton] at hmem
    exact hmem ▸ hs
  | cons e rest ih =>
    intro s hs hc s' hmem
    simp only [runStates, List.mem_cons] at hmem
    rcases hmem with rfl | hmem
    · exact hs
    · refine ih (step s e).1 (hstep s e hs ?_) ?_ s' hmem
      · intro c t het
        exact hc c t (het ▸ List.mem_cons_self _ _)
      · intro c t hmem'
        exact hc c t (List.mem_cons_of_mem _ hmem')

/-- C10: starting from the initial state, at the start of every loop
iteration of either variant, `last_data_time` is `None` exactly when the
buffer is empty (given that the reader only forwards non-empty chunks);
consequently, whenever the `app.py` timeout condition (which only tests
`last_data_time`) fires, the buffer is non-empty. -/
theorem claim10_state_invariant (events : List Event)
    (hc : ∀ c t, Event.data c t ∈ events → c ≠ []) :
    (∀ s' ∈ runStates captureStep ⟨[], none⟩ events,
      (s'.buffer = [] ↔ s'.lastDataTime = none)) ∧
    (∀ s' ∈ runStates appStep ⟨[], none⟩ events,
      (s'.buffer = [] ↔ s'.lastDataTime = none)) ∧
    (∀ (s : SegState) (T t : Nat), (s.buffer = [] ↔ s.lastDataTime = none) →
      s.lastDataTime = some T → T + JOB_COMPLETION_TIMEOUT < t → s.buffer ≠ []) := by
  refine ⟨runStates_inv captureStep_inv events ⟨[], none⟩ (by simp [SegInv]) hc,
    runStates_inv appStep_inv events ⟨[], none⟩ (by simp [SegInv]) hc, ?_⟩
  intro s T t hinv hT _ hbuf
  rw [hinv] at hbuf
  rw [hT] at hbuf
  exact Option.noConfusion hbuf

/-- Witness for C10: a concrete run of one data event followed by a poll,
checked at the state after the data event. -/
theorem claim10_state_invariant_witness :
    (⟨[5], some 0⟩ : SegState).buffer = [] ↔
      (⟨[5], some 0⟩ : SegState).lastDataTime = none := by
  have h := claim10_state_invariant [Event.data [5] 0, Event.poll 1000]
    (by intro c t hmem; simp at hmem; rcases hmem with ⟨rfl, rfl⟩; decide)
  exact h.1 ⟨[5], some 0⟩ (by decide)

/-- A burst continuation relative to the previous delivery time `T`: each
chunk is non-empty (the reader never forwards a 0-byte read) and arrives
after the previous chunk with a gap strictly below the inactivity
timeout. -/
def wfBurst : Nat → List (List Nat × Nat) → Bool
  | _, [] => true
  | T, (c, a) :: rest =>
    !c.isEmpty && decide (T ≤ a) && decide (a < T + JOB_COMPLETION_TIMEOUT) &&
      wfBurst a rest

theorem runSeg_polls_none {step : SegState → Event → SegState × List (List Nat)}
    (h : StepOK step) (s : SegState) (hs : s.lastDataTime = none) :
    ∀ (ps : List Nat) (rest : List Event),
    runSeg step s (ps.map Event.poll ++ rest) = runSeg step s rest := by
  intro ps
  induction ps with
  | nil => intro rest; rfl
  | cons p ps ih =>
    intro rest
    simp only [List.map_cons, List.cons_append, runSeg, h.poll_none s p hs,
      List.nil_append]
    exact ih rest

theorem runSeg_polls_small {step : SegState → Event → SegState × List (List Nat)}
    (h : StepOK step) (buf : List Nat) (T : Nat) :
    ∀ (ps : List Nat), (∀ p ∈ ps, p ≤ T + JOB_COMPLETION_TIMEOUT) →
    ∀ (rest : List Event),
    runSeg step ⟨buf, some T⟩ (ps.map Event.poll ++ rest) =
      runSeg step ⟨buf, some T⟩ rest := by
  intro ps
  induction ps with
  | nil => intro _ rest; rfl
  | cons p ps ih =>
    intro hp rest
    simp only [List.map_cons, List.cons_append, runSeg,
      h.poll_small ⟨buf, some T⟩ T p rfl (hp p (List.mem_cons_self _ _)),
      List.nil_append]
    exact ih (fun q hq => hp q (List.mem_cons_of_mem _ hq)) rest

theorem pollTimes_le_of (T a : Nat)
    (ha : a ≤ T + JOB_COMPLETION_TIMEOUT + POLL_INTERVAL) :
    ∀ p ∈ pollTimes T a, p ≤ T + JOB_COMPLETION_TIMEOUT := by
  intro p hp
  simp only [pollTimes, List.mem_map, List.mem_range] at hp
  obtain ⟨k, hk, rfl⟩ := hp
  have hdiv : (a - T - 1) / POLL_INTERVAL ≤ 3 := by
    have h1 : a - T - 1 ≤ 3999 := by
      simp only [JOB_COMPLETION_TIMEOUT, POLL_INTERVAL] at ha
      omega
    calc (a - T - 1) / POLL_INTERVAL ≤ 3999 / POLL_INTERVAL :=
          Nat.div_le_div_right h1
      _ = 3 := by simp [POLL_INTERVAL]
  have hk3 : k + 1 ≤ 3 := by omega
  simp only [JOB_COMPLETION_TIMEOUT, POLL_INTERVAL]
  omega

theorem runSeg_burst {step : SegState → Event → SegState × List (List Nat)}
    (h : StepOK step) :
    ∀ (r : List (List Nat × Nat)) (buf : List Nat) (T : Nat) (rest : List Event),
    wfBurst T r = true →
    runSeg step ⟨buf, some T⟩ (genChunks T r ++ rest) =
      runSeg step ⟨buf ++ bytesOf r, some (lastTime T r)⟩ rest := by
  intro r
  induction r with
  | nil => intro buf T rest _; simp [genChunks, bytesOf, lastTime]
  | cons ca r ih =>
    obtain ⟨c, a⟩ := ca
    intro buf T rest hwf
    simp only [wfBurst, Bool.and_eq_true, decide_eq_true_eq] at hwf
    obtain ⟨⟨⟨_, hTa⟩, hgap⟩, hwf'⟩ := hwf
    have hpolls : ∀ p ∈ pollTimes T a, p ≤ T + JOB_COMPLETION_TIMEOUT :=
      pollTimes_le_of T a (by simp only [POLL_INTERVAL]; omega)
    simp only [genChunks, List.append_assoc, List.cons_append]
    rw [runSeg_polls_small h buf T _ hpolls]
    simp only [runSeg, h.data_eq ⟨buf, some T⟩ c a, List.nil_append]
    rw [ih (buf ++ c) a rest hwf']
    simp [bytesOf, lastTime, List.append_assoc]

theorem runSeg_flush_gap {step : SegState → Event → SegState × List (List Nat)}
    (h : StepOK step) (buf : List Nat) (T a : Nat) (hb : buf ≠ [])
    (ha : T + JOB_COMPLETION_TIMEOUT + POLL_INTERVAL < a) (rest : List Event) :
    runSeg step ⟨buf, some T⟩ ((pollTimes T a).map Event.poll ++ rest) =
      buf :: runSeg step ⟨[], none⟩ rest := by
  obtain ⟨m, hm⟩ : ∃ m, (a - T - 1) / POLL_INTERVAL = 4 + m := by
    refine ⟨(a - T - 1) / POLL_INTERVAL - 4, ?_⟩
    have h4 : 4 ≤ (a - T - 1) / POLL_INTERVAL := by
      rw [Nat.le_div_iff_mul_le (by simp [POLL_INTERVAL])]
      simp only [JOB_COMPLETION_TIMEOUT, POLL_INTERVAL] at ha ⊢
      omega
    omega
  rw [pollTimes, hm, List.range_add 4 m]
  simp only [List.map_append, List.map_map, List.append_assoc]
  have hr4 : List.range 4 = [0, 1, 2, 3] := by decide
  rw [hr4]
  simp only [List.map_cons, List.map_nil, List.cons_append, List.nil_append]
  have hsmall : ∀ j : Nat, j + 1 ≤ 3 →
      step ⟨buf, some T⟩ (Event.poll (T + POLL_INTERVAL * (j + 1))) =
        (⟨buf, some T⟩, []) := by
    intro j hj
    refine h.poll_small _ T _ rfl ?_
    simp only [JOB_COMPLETION_TIMEOUT, POLL_INTERVAL]
    omega
  have hbig : step ⟨buf, some T⟩ (Event.poll (T + POLL_INTERVAL * (3 + 1))) =
      (⟨[], none⟩, [buf]) := by
    refine h.poll_big _ T _ rfl ?_ hb
    simp only [JOB_COMPLETION_TIMEOUT, POLL_INTERVAL]
    omega
  simp only [runSeg, hsmall 0 (by omega), hsmall 1 (by omega), hsmall 2 (by omega),
    hbig, List.nil_append, List.singleton_append]
  congr 1
  rw [← List.map_map]
  exact runSeg_polls_none h ⟨[], none⟩ rfl _ rest

theorem runSeg_final {step : SegState → Event → SegState × List (List Nat)}
    (h : StepOK step) (buf : List Nat) (T eosT : Nat) (hb : buf ≠ []) :
    runSeg step ⟨buf, some T⟩
      ((pollTimes T eosT).map Event.poll ++ [Event.eos]) = [buf] := by
  rcases le_or_lt eosT (T + JOB_COMPLETION_TIMEOUT + POLL_INTERVAL) with hle | hlt
  · rw [runSeg_polls_small h buf T _ (pollTimes_le_of T eosT hle)]
    simp [runSeg, save_buffer, hb]
  · rw [runSeg_flush_gap h buf T eosT hb hlt]
    simp [runSeg, save_buffer]

theorem genChunks_append (T : Nat) (xs ys : List (List Nat × Nat)) :
    genChunks T (xs ++ ys) = genChunks T xs ++ genChunks (lastTime T xs) ys := by
  induction xs generalizing T with
  | nil => simp [genChunks, lastTime]
  | cons ca xs ih =>
    obtain ⟨c, a⟩ := ca
    simp [genChunks, lastTime, ih a, List.append_assoc]

theorem lastTime_append (T : Nat) (xs ys : List (List Nat × Nat)) :
    lastTime T (xs ++ ys) = lastTime (lastTime T xs) ys := by
  induction xs generalizing T with
  | nil => simp [lastTime]
  | cons ca xs ih =>
    obtain ⟨c, a⟩ := ca
    simp [lastTime, ih a]

theorem append_bytes_ne_nil (c : List Nat) (r : List (List Nat × Nat))
    (hc : c ≠ []) : c ++ bytesOf r ≠ [] := by
  intro hcontra
  rcases List.append_eq_nil.mp hcontra with ⟨hc', _⟩
  exact hc hc'

theorem runSeg_schedule_single {step : SegState → Event → SegState × List (List Nat)}
    (h : StepOK step) (c1 : List Nat) (a1 eosT : Nat) (r : List (List Nat × Nat))
    (h1 : c1 ≠ []) (hwf : wfBurst a1 r = true) :
    runSeg step ⟨[], none⟩ (genEvents ((c1, a1) :: r) eosT) =
      [c1 ++ bytesOf r] := by
  simp only [genEvents, genChunks, lastTime, List.append_assoc, List.cons_append]
  rw [runSeg_polls_none h ⟨[], none⟩ rfl]
  simp only [runSeg, h.data_eq ⟨[], none⟩ c1 a1, List.nil_append]
  rw [runSeg_burst h r c1 a1 _ hwf]
  exact runSeg_final h (c1 ++ bytesOf r) (lastTime a1 r) eosT
    (append_bytes_ne_nil c1 r h1)

theorem runSeg_schedule_double {step : SegState → Event → SegState × List (List Nat)}
    (h : StepOK step) (c1 d1 : List Nat) (a1 e1 eosT : Nat)
    (r1 r2 : List (List Nat × Nat)) (h1 : c1 ≠ []) (hwf1 : wfBurst a1 r1 = true)
    (h2 : d1 ≠ []) (hwf2 : wfBurst e1 r2 = true)
    (hgap : lastTime a1 r1 + JOB_COMPLETION_TIMEOUT + POLL_INTERVAL < e1) :
    runSeg step ⟨[], none⟩ (genEvents (((c1, a1) :: r1) ++ ((d1, e1) :: r2)) eosT) =
      [c1 ++ bytesOf r1, d1 ++ bytesOf r2] := by
  simp only [genEvents, List.append_eq, genChunks_append, lastTime_append,
    genChunks, lastTime, List.append_assoc, List.cons_append]
  rw [runSeg_polls_none h ⟨[], none⟩ rfl]
  simp only [runSeg, h.data_eq ⟨[], none⟩ c1 a1, List.nil_append]
  rw [runSeg_burst h r1 c1 a1 _ hwf1]
  rw [runSeg_flush_gap h (c1 ++ bytesOf r1) (lastTime a1 r1) e1
    (append_bytes_ne_nil c1 r1 h1) hgap]
  simp only [runSeg, h.data_eq ⟨[], none⟩ d1 e1, List.nil_append]
  rw [runSeg_burst h r2 d1 e1 _ hwf2]
  rw [runSeg_final h (d1 ++ bytesOf r2) (lastTime e1 r2) eosT
    (append_bytes_ne_nil d1 r2 h2)]

/-- C2: a sequence of chunks whose consecutive gaps are all strictly below
the 3.0 s inactivity timeout is flushed as exactly one job whose bytes are
the concatenation of all chunks in arrival order, by both loop variants. -/
theorem claim2_single_burst (c1 : List Nat) (a1 eosT : Nat)
    (r : List (List Nat × Nat)) (h1 : c1 ≠ []) (hwf : wfBurst a1 r = true) :
    captureJobs ((c1, a1) :: r) eosT = [c1 ++ bytesOf r] ∧
    appJobs ((c1, a1) :: r) eosT = [c1 ++ bytesOf r] :=
  ⟨runSeg_schedule_single captureStep_ok c1 a1 eosT r h1 hwf,
   runSeg_schedule_single appStep_ok c1 a1 eosT r h1 hwf⟩

/-- Witness for C2: three chunks with gaps 0.5 s and 2.499 s produce the
single job `[72, 32, 87]`. -/
theorem claim2_single_burst_witness :
    captureJobs [([72], 0), ([32], 500), ([87], 2999)] 9000 = [[72, 32, 87]] := by
  have h := claim2_single_burst [72] 0 9000 [([32], 500), ([87], 2999)]
    (by decide) (by decide)
  simpa using h.1

/-- C1 counterexample: two single-chunk bursts 3.5 s apart — a silent gap
strictly greater than the 3.0 s inactivity timeout — are merged into ONE
job by both loop variants, because between the two deliveries the periodic
1.0 s polls fire at 1.0 s, 2.0 s and 3.0 s after the first chunk, none of
which satisfies `now - last_data_time > 3.0 s`; the claim's "exactly two
Jobs" fails. -/
theorem claim1_counterexample :
    0 + JOB_COMPLETION_TIMEOUT < 3500 ∧
    captureJobs [([72], 0), ([87], 3500)] 9000 = [[72, 87]] ∧
    appJobs [([72], 0), ([87], 3500)] 9000 = [[72, 87]] ∧
    captureJobs [([72], 0), ([87], 3500)] 9000 ≠ [[72], [87]] ∧
    appJobs [([72], 0), ([87], 3500)] 9000 ≠ [[72], [87]] := by
  decide

/-- C1 amended: two chunk bursts (internal gaps below the timeout)
separated by a silent gap strictly greater than the inactivity timeout PLUS
the 1.0 s poll interval (i.e. > 4.0 s) are flushed as exactly two jobs,
the first containing exactly the first burst's bytes in arrival order and
the second exactly the second burst's, by both loop variants. -/
theorem claim1_amended_two_bursts (c1 d1 : List Nat) (a1 e1 eosT : Nat)
    (r1 r2 : List (List Nat × Nat)) (h1 : c1 ≠ []) (hwf1 : wfBurst a1 r1 = true)
    (h2 : d1 ≠ []) (hwf2 : wfBurst e1 r2 = true)
    (hgap : lastTime a1 r1 + JOB_COMPLETION_TIMEOUT + POLL_INTERVAL < e1) :
    captureJobs (((c1, a1) :: r1) ++ ((d1, e1) :: r2)) eosT =
      [c1 ++ bytesOf r1, d1 ++ bytesOf r2] ∧
    appJobs (((c1, a1) :: r1) ++ ((d1, e1) :: r2)) eosT =
      [c1 ++ bytesOf r1, d1 ++ bytesOf r2] :=
  ⟨runSeg_schedule_double captureStep_ok c1 d1 a1 e1 eosT r1 r2 h1 hwf1 h2 hwf2 hgap,
   runSeg_schedule_double appStep_ok c1 d1 a1 e1 eosT r1 r2 h1 hwf1 h2 hwf2 hgap⟩

/-- Witness for the amended C1: bursts at 0 s and 4.2 s give two jobs. -/
theorem claim1_amended_two_bursts_witness :
    captureJobs [([72], 0), ([87], 4200)] 9000 = [[72], [87]] := by
  have h := claim1_amended_two_bursts [72] [87] 0 4200 9000 [] []
    (by decide) (by decide) (by decide) (by decide) (by decide)
  simpa using h.1

/-! ### ESC/POS extractors (extract_string.convert_escpos and
utility/escpos_converter.convert_escpos) -/

/-- Python `str.replace(pat, rep)`: scan left to right, replacing
non-overlapping occurrences of `pat` and continuing after the inserted
replacement.  The `Nat` argument is structural fuel equal to the length of
the scanned string; each step consumes at least one character so that fuel
is always sufficient (and keeps the function kernel-reducible). -/
def pyReplaceAux (pat rep : List Nat) : Nat → List Nat → List Nat
  | _, [] => []
  | 0, s => s
  | fuel + 1, a :: s =>
    if pat ≠ [] ∧ pat <+: (a :: s) then
      rep ++ pyReplaceAux pat rep fuel ((a :: s).drop pat.length)
    else a :: pyReplaceAux pat rep fuel s

def pyReplace (pat rep s : List Nat) : List Nat :=
  pyReplaceAux pat rep s.length s

/-- The fixed catalogue removed by `extract_string.convert_escpos`
(lines 47-56): `ESC @` (initialize), `ESC !` (print mode), `ESC -`
(underline), `ESC E` / `ESC F` (bold on/off), `ESC M` (font A), `ESC P`
(10 cpi), `ESC ! NUL` (normal text). -/
def escpos_codes : List (List Nat) :=
  [[27, 64], [27, 33], [27, 45], [27, 69], [27, 70], [27, 77], [27, 80],
   [27, 33, 0]]

/-- Characters kept by the `re.sub(r'[^\x20-\x7E\n\t]', '', ...)` pass. -/
def escAllowed (c : Nat) : Bool :=
  decide (32 ≤ c ∧ c ≤ 126) || c == 10 || c == 9

/-- Embedding of `extract_string.convert_escpos` (lines 36-62): decode as
latin-1 (identity on codes), delete each catalogue sequence in turn, strip
every remaining character outside printable ASCII except newline and tab,
then `str.strip()` the result. -/
def Scripts.convert_escpos (content : List Nat) : List Nat :=
  pyStrip
    ((escpos_codes.foldl (fun acc code => pyReplace code [] acc) content).filter
      escAllowed)

/-- Marker text `"\n--- CUT ---\n"` substituted for cut commands by the
utility converter. -/
def cutMark : List Nat := [10, 45, 45, 45, 32, 67, 85, 84, 32, 45, 45, 45, 10]

/-- The replacement table of `utility/escpos_converter.convert_escpos`
(lines 20-39), in dict insertion order: LF and `ESC d` to newline, CR
deleted, print-mode and alignment codes deleted, both cut commands to the
`--- CUT ---` marker. -/
def escpos_replacements : List (List Nat × List Nat) :=
  [([10], [10]), ([13], []), ([27, 100], [10]),
   ([27, 33, 0], []), ([27, 33, 1], []), ([27, 33, 16], []), ([27, 33, 32], []),
   ([27, 97, 0], []), ([27, 97, 1], []), ([27, 97, 2], []),
   ([29, 86, 65, 0], cutMark), ([29, 86, 66, 0], cutMark)]

/-- The character loop of `utility/escpos_converter.convert_escpos`
(lines 48-57): keep printable ASCII plus tab/LF/CR, keep extended latin-1
(160-255), turn the remaining characters above 127 into `?`, drop the
rest. -/
def escposUtilClean : List Nat → List Nat :=
  List.filterMap (fun c =>
    if (32 ≤ c ∧ c ≤ 126) ∨ c = 9 ∨ c = 10 ∨ c = 13 then some c
    else if 127 < c then (if 160 ≤ c ∧ c ≤ 255 then some c else some 63)
    else none)

/-- Embedding of `utility/escpos_converter.convert_escpos` (lines 7-58). -/
def Utility.convert_escpos (content : List Nat) : List Nat :=
  escposUtilClean
    (escpos_replacements.foldl (fun acc pr => pyReplace pr.1 pr.2 acc) content)

theorem dropWhile_head?_not (p : Nat → Bool) :
    ∀ (l : List Nat) (c : Nat), (l.dropWhile p).head? = some c → p c = false := by
  intro l
  induction l with
  | nil => intro c h; simp [List.dropWhile] at h
  | cons a l ih =>
    intro c h
    by_cases hp : p a
    · exact ih c (by simpa [List.dropWhile, hp] using h)
    · simp only [List.dropWhile, hp, Bool.false_eq_true, if_false] at h
      simp only [List.head?_cons, Option.some.injEq] at h
      subst h
      exact Bool.eq_false_iff.mpr hp

theorem pyStrip_subset (l : List Nat) : pyStrip l ⊆ l := by
  intro x hx
  simp only [pyStrip, List.mem_reverse] at hx
  have h1 := (List.dropWhile_suffix (l := (l.dropWhile pySpace).reverse)
    pySpace).sublist.subset hx
  simp only [List.mem_reverse] at h1
  exact (List.dropWhile_suffix pySpace).sublist.subset h1

theorem pyStrip_getLast?_not (l : List Nat) (c : Nat)
    (h : (pyStrip l).getLast? = some c) : pySpace c = false := by
  rw [pyStrip, List.getLast?_reverse] at h
  exact dropWhile_head?_not pySpace _ c h

theorem pyStrip_head?_not (l : List Nat) (c : Nat)
    (h : (pyStrip l).head? = some c) : pySpace c = false := by
  rw [pyStrip, List.head?_reverse] at h
  obtain ⟨t, ht⟩ :=
    List.dropWhile_suffix (l := (l.dropWhile pySpace).reverse) pySpace
  rcases hd : (l.dropWhile pySpace).reverse.dropWhile pySpace with _ | ⟨b, bs⟩
  · rw [hd] at h; simp at h
  · rw [hd] at ht h
    have h2 : (l.dropWhile pySpace).reverse.getLast? = some c := by
      rw [← ht, List.getLast?_append_of_ne_nil _ (by simp)]
      exact h
    rw [List.getLast?_reverse] at h2
    exact dropWhile_head?_not pySpace l c h2

theorem scripts_escpos_mem (content : List Nat) (c : Nat)
    (hc : c ∈ Scripts.convert_escpos content) :
    c = 9 ∨ c = 10 ∨ (32 ≤ c ∧ c ≤ 126) := by
  have hdef : Scripts.convert_escpos content =
      pyStrip ((escpos_codes.foldl (fun acc code => pyReplace code [] acc)
        content).filter escAllowed) := rfl
  rw [hdef] at hc
  have hmem := pyStrip_subset _ hc
  have hall := (List.mem_filter.mp hmem).2
  clear hc hmem hdef
  simp only [escAllowed, Bool.or_eq_true, beq_iff_eq, decide_eq_true_eq] at hall
  rcases hall with (h | h) | h
  · exact Or.inr (Or.inr h)
  · exact Or.inr (Or.inl h)
  · exact Or.inl h

/-- C8: the output of the pipeline's ESC/POS extractor contains only
printable ASCII (0x20-0x7E), newline and tab, and carries no leading or
trailing whitespace. -/
theorem claim8_escpos_printable_trimmed (content : List Nat) :
    (∀ c ∈ Scripts.convert_escpos content, c = 9 ∨ c = 10 ∨ (32 ≤ c ∧ c ≤ 126)) ∧
    (∀ c, (Scripts.convert_escpos content).head? = some c → pySpace c = false) ∧
    (∀ c, (Scripts.convert_escpos content).getLast? = some c → pySpace c = false) := by
  have hdef : Scripts.convert_escpos content =
      pyStrip ((escpos_codes.foldl (fun acc code => pyReplace code [] acc)
        content).filter escAllowed) := rfl
  refine ⟨fun c hc => scripts_escpos_mem content c hc, ?_, ?_⟩
  · intro c h
    rw [hdef] at h
    exact pyStrip_head?_not _ c h
  · intro c h
    rw [hdef] at h
    exact pyStrip_getLast?_not _ c h

/-- Witness for C8 on input `ESC @ "Hi" BEL`: the extractor returns
`"Hi"`, whose bytes are printable and not whitespace at either end. -/
theorem claim8_escpos_printable_trimmed_witness :
    Scripts.convert_escpos [27, 64, 72, 105, 7] = [72, 105] ∧
    (32 ≤ 72 ∧ 72 ≤ 126) ∧ pySpace 72 = false := by
  refine ⟨by decide, ?_, ?_⟩
  · rcases (claim8_escpos_printable_trimmed [27, 64, 72, 105, 7]).1 72
      (by decide) with h | h | h
    · exact absurd h (by decide)
    · exact absurd h (by decide)
    · exact h
  · exact (claim8_escpos_printable_trimmed [27, 64, 72, 105, 7]).2.1 72 (by decide)

/-- C7 counterexample: the pipeline's ESC/POS extractor
(`extract_string.convert_escpos`) has no handling for cut commands at all.
On the full-cut command `GS V A NUL` it outputs the residue `"VA"` — the
cut is neither removed cleanly nor replaced by the `--- CUT ---` marker. -/
theorem claim7_counterexample :
    Scripts.convert_escpos [29, 86, 65, 0] = [86, 65] ∧
    ¬ [45, 45, 45, 32, 67, 85, 84, 32, 45, 45, 45] <:+:
      Scripts.convert_escpos [29, 86, 65, 0] := by
  decide

theorem escposUtilClean_mem (l : List Nat) (c : Nat)
    (hc : c ∈ escposUtilClean l) : c ≠ 27 ∧ c ≠ 29 := by
  simp only [escposUtilClean, List.mem_filterMap] at hc
  obtain ⟨a, _, ha⟩ := hc
  by_cases h1 : (32 ≤ a ∧ a ≤ 126) ∨ a = 9 ∨ a = 10 ∨ a = 13
  · rw [if_pos h1] at ha
    obtain rfl : a = c := Option.some.inj ha
    omega
  · rw [if_neg h1] at ha
    by_cases h2 : 127 < a
    · rw [if_pos h2] at ha
      by_cases h3 : 160 ≤ a ∧ a ≤ 255
      · rw [if_pos h3] at ha
        obtain rfl : a = c := Option.some.inj ha
        omega
      · rw [if_neg h3] at ha
        obtain rfl : (63 : Nat) = c := Option.some.inj ha
        omega
    · rw [if_neg h2] at ha
      exact absurd ha (by simp)

theorem utility_escpos_mem (content : List Nat) (c : Nat)
    (hc : c ∈ Utility.convert_escpos content) : c ≠ 27 ∧ c ≠ 29 := by
  have hdef : Utility.convert_escpos content =
      escposUtilClean (escpos_replacements.foldl
        (fun acc pr => pyReplace pr.1 pr.2 acc) content) := rfl
  rw [hdef] at hc
  exact escposUtilClean_mem _ c hc

/-- C7 amended: every catalogue control sequence is absent from both
extractors' outputs (every ESC/GS byte is stripped, so no sequence
beginning with one can appear); the `--- CUT ---` marker substitution for
cut commands exists only in the utility converter — the pipeline's
extractor (`extract_string.convert_escpos`) has no cut handling and leaves
the printable residue `"VA"` of a cut command in its output. -/
theorem claim7_amended_control_codes (content : List Nat) :
    (∀ c ∈ Scripts.convert_escpos content, c ≠ 27 ∧ c ≠ 29) ∧
    (∀ c ∈ Utility.convert_escpos content, c ≠ 27 ∧ c ≠ 29) ∧
    (∀ code ∈ escpos_codes, ¬ code <:+: Scripts.convert_escpos content) ∧
    (∀ pr ∈ escpos_replacements, (27 ∈ pr.1 ∨ 29 ∈ pr.1) →
      ¬ pr.1 <:+: Utility.convert_escpos content) ∧
    Utility.convert_escpos [29, 86, 65, 0] = cutMark ∧
    Scripts.convert_escpos [29, 86, 65, 0] = [86, 65] := by
  have hs : ∀ c ∈ Scripts.convert_escpos content, c ≠ 27 ∧ c ≠ 29 := by
    intro c hc
    rcases scripts_escpos_mem content c hc with h | h | h <;> omega
  have hu : ∀ c ∈ Utility.convert_escpos content, c ≠ 27 ∧ c ≠ 29 :=
    fun c hc => utility_escpos_mem content c hc
  refine ⟨hs, hu, ?_, ?_, by decide, by decide⟩
  · intro code hcode hinf
    have hall : ∀ code ∈ escpos_codes, 27 ∈ code := by decide
    exact (hs 27 (hinf.subset (hall code hcode))).1 rfl
  · intro pr _ hpr hinf
    rcases hpr with h | h
    · exact (hu 27 (hinf.subset h)).1 rfl
    · exact (hu 29 (hinf.subset h)).2 rfl

/-- Witness for the amended C7: the utility converter turns the full-cut
command into the marker; the pipeline extractor on the same bytes keeps
neither ESC nor GS bytes. -/
theorem claim7_amended_control_codes_witness :
    Utility.convert_escpos [29, 86, 65, 0] = cutMark ∧
    ¬ [27, 64] <:+: Scripts.convert_escpos [27, 64, 72, 105] := by
  constructor
  · exact (claim7_amended_control_codes []).2.2.2.2.1
  · exact (claim7_amended_control_codes [27, 64, 72, 105]).2.2.1 [27, 64]
      (by decide)

/-! ### Raw-text extractors (extract_string.convert_rawtext and
utility/rawtext_converter.convert_rawtext) -/

/-- Continuation byte 0x80-0xBF. -/
def utf8Cont (c : Nat) : Bool := decide (128 ≤ c ∧ c ≤ 191)

/-- Strict UTF-8 decoding as performed by Python's `utf-8` codec:
`some` of the code points on success, `none` on any invalid, overlong,
surrogate or truncated sequence (the `UnicodeDecodeError` case). -/
def utf8Decode : List Nat → Option (List Nat)
  | [] => some []
  | b :: rest =>
    if b ≤ 127 then (utf8Decode rest).map (fun t => b :: t)
    else if 194 ≤ b ∧ b ≤ 223 then
      match rest with
      | c1 :: rest2 =>
        if utf8Cont c1 then
          (utf8Decode rest2).map (fun t => ((b - 192) * 64 + (c1 - 128)) :: t)
        else none
      | [] => none
    else if 224 ≤ b ∧ b ≤ 239 then
      match rest with
      | c1 :: c2 :: rest3 =>
        if (if b = 224 then decide (160 ≤ c1 ∧ c1 ≤ 191)
            else if b = 237 then decide (128 ≤ c1 ∧ c1 ≤ 159)
            else utf8Cont c1) && utf8Cont c2 then
          (utf8Decode rest3).map
            (fun t => ((b - 224) * 4096 + (c1 - 128) * 64 + (c2 - 128)) :: t)
        else none
      | _ => none
    else if 240 ≤ b ∧ b ≤ 244 then
      match rest with
      | c1 :: c2 :: c3 :: rest4 =>
        if (if b = 240 then decide (144 ≤ c1 ∧ c1 ≤ 191)
            else if b = 244 then decide (128 ≤ c1 ∧ c1 ≤ 143)
            else utf8Cont c1) && utf8Cont c2 && utf8Cont c3 then
          (utf8Decode rest4).map
            (fun t => ((b - 240) * 262144 + (c1 - 128) * 4096 +
              (c2 - 128) * 64 + (c3 - 128)) :: t)
        else none
      | _ => none
    else none

/-- The decoded content both raw-text converters operate on: try strict
UTF-8 first (`open(..., encoding='utf-8')`), and on `UnicodeDecodeError`
fall back to latin-1, which maps each byte to the equal code point. -/
def rawContent (bytes : List Nat) : List Nat :=
  match utf8Decode bytes with
  | some s => s
  | none => bytes

/-- Embedding of `extract_string.convert_rawtext` (lines 137-153): decode,
remove every character outside `[^\x20-\x7E\n\t]` from the whole text (the
same character class as the ESC/POS pass), then `str.strip()`.  There is
no per-line processing and no fallback message; the result may be the
empty string. -/
def Scripts.convert_rawtext (bytes : List Nat) : List Nat :=
  pyStrip ((rawContent bytes).filter escAllowed)

/-- Line-break code points recognised by Python `str.splitlines`. -/
def lineBreak (c : Nat) : Bool :=
  c == 10 || c == 11 || c == 12 || c == 13 || c == 28 || c == 29 || c == 30 ||
  c == 0x85 || c == 0x2028 || c == 0x2029

/-- Python `str.splitlines`: split at each line-break (treating CR LF as
one break), emitting every interior segment (even empty) but no trailing
empty segment.  The accumulator holds the current segment reversed. -/
def pySplitlinesAux : List Nat → List Nat → List (List Nat)
  | cur, [] => if cur.isEmpty then [] else [cur.reverse]
  | cur, 13 :: 10 :: rest => cur.reverse :: pySplitlinesAux [] rest
  | cur, c :: rest =>
    if lineBreak c then cur.reverse :: pySplitlinesAux [] rest
    else pySplitlinesAux (c :: cur) rest

def pySplitlines (l : List Nat) : List (List Nat) :=
  pySplitlinesAux [] l

/-- Characters kept per line by the utility raw-text converter:
`32 <= ord(char) <= 126 or char in '\t\n\r'`. -/
def lineAllowed (c : Nat) : Bool :=
  decide (32 ≤ c ∧ c ≤ 126) || c == 9 || c == 10 || c == 13

/-- Fixed message of `utility/rawtext_converter.convert_rawtext`. -/
def RAWTEXT_MSG : List Nat := strCodes ("No readable text content found.")

/-- Embedding of `utility/rawtext_converter.convert_rawtext` (lines 9-40):
decode with UTF-8 then latin-1 fallback, split into lines, filter each
line to its allowed characters, keep a (filtered, unstripped) line only if
it still has non-whitespace content (`if clean_line.strip():`), join with
newlines, message when nothing survives. -/
def Utility.convert_rawtext (bytes : List Nat) : List Nat :=
  let kept := ((pySplitlines (rawContent bytes)).map
    (fun line => line.filter lineAllowed)).filter
      (fun l => !(pyStrip l).isEmpty)
  if kept.isEmpty then RAWTEXT_MSG else List.intercalate [10] kept

/-- Modelled from the claim's wording (C6), for comparison with the code:
split the decoded content into lines, remove from each line every byte
outside 0x20-0x7E other than tab/CR/newline, drop every line that is EMPTY
after this stripping, join the survivors with newlines, and return the
fixed message when no line survives. -/
def convert_rawtext_claim (bytes : List Nat) : List Nat :=
  let kept := ((pySplitlines (rawContent bytes)).map
    (fun line => line.filter lineAllowed)).filter (fun l => !l.isEmpty)
  if kept.isEmpty then RAWTEXT_MSG else List.intercalate [10] kept

theorem intercalate_cons_ne_nil (sep l0 : List Nat) (rest : List (List Nat))
    (h : l0 ≠ []) : List.intercalate sep (l0 :: rest) ≠ [] := by
  cases rest with
  | nil =>
    simpa [List.intercalate, List.intersperse] using h
  | cons r rs =>
    simp only [List.intercalate, List.intersperse, List.flatten]
    intro hcontra
    rcases List.append_eq_nil.mp hcontra with ⟨hc, _⟩
    exact h hc

theorem utility_rawtext_ne_nil (bytes : List Nat) :
    Utility.convert_rawtext bytes ≠ [] := by
  have hdefU : Utility.convert_rawtext bytes =
      if (((pySplitlines (rawContent bytes)).map
          (fun line => line.filter lineAllowed)).filter
            (fun l => !(pyStrip l).isEmpty)).isEmpty
      then RAWTEXT_MSG
      else List.intercalate [10]
        (((pySplitlines (rawContent bytes)).map
          (fun line => line.filter lineAllowed)).filter
            (fun l => !(pyStrip l).isEmpty)) := rfl
  rw [hdefU]
  by_cases hk : (((pySplitlines (rawContent bytes)).map
      (fun line => line.filter lineAllowed)).filter
        (fun l => !(pyStrip l).isEmpty)).isEmpty
  · rw [if_pos hk]
    decide
  · rw [if_neg hk]
    rcases hke : (((pySplitlines (rawContent bytes)).map
        (fun line => line.filter lineAllowed)).filter
          (fun l => !(pyStrip l).isEmpty)) with _ | ⟨l0, rest⟩
    · rw [hke] at hk
      simp at hk
    · have hmem : l0 ∈ (((pySplitlines (rawContent bytes)).map
          (fun line => line.filter lineAllowed)).filter
            (fun l => !(pyStrip l).isEmpty)) := by
        rw [hke]
        exact List.mem_cons_self _ _
      have hstrip := (List.mem_filter.mp hmem).2
      have hl0ne : l0 ≠ [] := by
        intro hc
        rw [hc] at hstrip
        exact absurd hstrip (by decide)
      rw [hke]
      exact intercalate_cons_ne_nil [10] l0 rest hl0ne

/-- C6 counterexample: the raw-text extractor the pipeline dispatches to
(`extract_string.convert_rawtext`) does no per-line processing and has no
fallback message.  On the single control byte 0x01 it returns the empty
string where the claim requires the fixed message; on `"a\n\nb"` it keeps
the empty line the claim says is dropped.  The utility converter also
differs from the claim: it drops a whitespace-only line (`"  "`), which is
non-empty after the byte filter. -/
theorem claim6_counterexample :
    Scripts.convert_rawtext [1] = [] ∧
    convert_rawtext_claim [1] = RAWTEXT_MSG ∧
    RAWTEXT_MSG ≠ [] ∧
    Scripts.convert_rawtext [97, 10, 10, 98] = [97, 10, 10, 98] ∧
    convert_rawtext_claim [97, 10, 10, 98] = [97, 10, 98] ∧
    Utility.convert_rawtext [32, 32, 10, 97, 98] = [97, 98] ∧
    convert_rawtext_claim [32, 32, 10, 97, 98] = [32, 32, 10, 97, 98] := by
  decide

/-- C6 amended: the pipeline's raw-text extractor strips the disallowed
bytes from the WHOLE decoded text and trims surrounding whitespace — its
output contains only printable ASCII/newline/tab, is trimmed, and may be
empty.  Line splitting, dropping of lines with no non-whitespace content,
and the fixed fallback message (so the result is never empty) belong to
the utility raw-text converter. -/
theorem claim6_amended_rawtext (bytes : List Nat) :
    (∀ c ∈ Scripts.convert_rawtext bytes, escAllowed c = true) ∧
    (∀ c, (Scripts.convert_rawtext bytes).head? = some c → pySpace c = false) ∧
    (∀ c, (Scripts.convert_rawtext bytes).getLast? = some c → pySpace c = false) ∧
    (Utility.convert_rawtext bytes = RAWTEXT_MSG ∨
      ∃ ls : List (List Nat), ls ≠ [] ∧
        (∀ l ∈ ls, pyStrip l ≠ [] ∧ ∀ c ∈ l, lineAllowed c = true) ∧
        Utility.convert_rawtext bytes = List.intercalate [10] ls) ∧
    Utility.convert_rawtext bytes ≠ [] := by
  have hdefS : Scripts.convert_rawtext bytes =
      pyStrip ((rawContent bytes).filter escAllowed) := rfl
  have hdefU : Utility.convert_rawtext bytes =
      if (((pySplitlines (rawContent bytes)).map
          (fun line => line.filter lineAllowed)).filter
            (fun l => !(pyStrip l).isEmpty)).isEmpty
      then RAWTEXT_MSG
      else List.intercalate [10]
        (((pySplitlines (rawContent bytes)).map
          (fun line => line.filter lineAllowed)).filter
            (fun l => !(pyStrip l).isEmpty)) := rfl
  have hkeep : ∀ l ∈ (((pySplitlines (rawContent bytes)).map
      (fun line => line.filter lineAllowed)).filter
        (fun l => !(pyStrip l).isEmpty)),
      pyStrip l ≠ [] ∧ ∀ c ∈ l, lineAllowed c = true := by
    intro l hl
    obtain ⟨hmem, hstrip⟩ := List.mem_filter.mp hl
    refine ⟨?_, ?_⟩
    · intro hc
      rw [hc] at hstrip
      simp at hstrip
    · obtain ⟨line, _, rfl⟩ := List.mem_map.mp hmem
      intro c hc
      exact (List.mem_filter.mp hc).2
  refine ⟨?_, ?_, ?_, ?_, ?_⟩
  · intro c hc
    rw [hdefS] at hc
    exact (List.mem_filter.mp (pyStrip_subset _ hc)).2
  · intro c h
    rw [hdefS] at h
    exact pyStrip_head?_not _ c h
  · intro c h
    rw [hdefS] at h
    exact pyStrip_getLast?_not _ c h
  · by_cases hk : (((pySplitlines (rawContent bytes)).map
        (fun line => line.filter lineAllowed)).filter
          (fun l => !(pyStrip l).isEmpty)).isEmpty
    · left
      rw [hdefU, if_pos hk]
    · right
      refine ⟨_, ?_, hkeep, by rw [hdefU, if_neg hk]⟩
      intro hc
      rw [hc] at hk
      simp at hk
  · exact utility_rawtext_ne_nil bytes

/-- Witness for the amended C6 at input `"Hi"`: every output byte of the
script extractor is allowed, and the utility converter's output is
non-empty. -/
theorem claim6_amended_rawtext_witness :
    escAllowed 72 = true ∧ Utility.convert_rawtext [72, 105] ≠ [] :=
  ⟨(claim6_amended_rawtext [72, 105]).1 72 (by decide),
   (claim6_amended_rawtext [72, 105]).2.2.2.2⟩

/-! ### PostScript extractor (extract_string.convert_postscript)

The source runs six `re.findall` patterns (with `re.DOTALL`) plus a
character scan over the latin-1-decoded content.  The patterns are
embedded as abstract syntax trees over a small backtracking matcher whose
result list is ordered by the backtracking priority Python's engine uses
(so its head is the match Python returns). -/

/-- Python regex `\w` for the code points reachable from latin-1 decoding:
ASCII alphanumerics and underscore plus the alphanumeric latin-1
characters (ª ² ³ µ ¹ º ¼ ½ ¾ and the accented letters, excluding × and
÷).  Only the ASCII part matters to the theorems below. -/
def isWordChar (c : Nat) : Bool :=
  decide (48 ≤ c ∧ c ≤ 57) || decide (65 ≤ c ∧ c ≤ 90) ||
  decide (97 ≤ c ∧ c ≤ 122) || c == 95 || c == 0xAA ||
  decide (0xB2 ≤ c ∧ c ≤ 0xB3) || c == 0xB5 || decide (0xB9 ≤ c ∧ c ≤ 0xBA) ||
  decide (0xBC ≤ c ∧ c ≤ 0xBE) ||
  (decide (0xC0 ≤ c ∧ c ≤ 0xFF) && !(c == 0xD7) && !(c == 0xF7))

/-- Regular-expression syntax used by the six patterns: character
predicate, concatenation, prioritised alternation, greedy and lazy star,
greedy option, the (single) capture group, word boundary. -/
inductive RE where
  | eps
  | pred (p : Nat → Bool)
  | seq (a b : RE)
  | alt (a b : RE)
  | star (a : RE)
  | starL (a : RE)
  | opt (a : RE)
  | group (a : RE)
  | wordB

/-- Is the character at position `i` (if any) a word character? -/
def isWordAt (s : List Nat) (i : Nat) : Bool :=
  match s[i]? with
  | some c => isWordChar c
  | none => false

/-- Is the character just before position `i` (if any) a word character? -/
def isWordBefore (s : List Nat) (i : Nat) : Bool :=
  if i = 0 then false else isWordAt s (i - 1)

/-- All ways to match `re` in `s` starting at position `i`, as
`(end position, capture-group span)` pairs in backtracking priority order
(greedy alternatives first, lazy star epsilon first).  A starred
sub-expression only iterates when it consumed at least one character, as
in Python.  The `Nat` is structural fuel bounding the recursion depth;
every use below supplies more than the depth reachable on the given
string, so the cut-off branch (`[]` at fuel 0) is never taken. -/
def reMatch (s : List Nat) : Nat → RE → Nat → List (Nat × Option (Nat × Nat))
  | 0, _, _ => []
  | _ + 1, RE.eps, i => [(i, none)]
  | _ + 1, RE.pred p, i =>
    match s[i]? with
    | some c => if p c then [(i + 1, none)] else []
    | none => []
  | _ + 1, RE.wordB, i =>
    if isWordBefore s i ≠ isWordAt s i then [(i, none)] else []
  | f + 1, RE.seq a b, i =>
    (reMatch s f a i).flatMap (fun r =>
      (reMatch s f b r.1).map (fun q => (q.1, r.2 <|> q.2)))
  | f + 1, RE.alt a b, i => reMatch s f a i ++ reMatch s f b i
  | f + 1, RE.opt a, i => reMatch s f a i ++ [(i, none)]
  | f + 1, RE.star a, i =>
    ((reMatch s f a i).filter (fun r => i < r.1)).flatMap (fun r =>
      (reMatch s f (RE.star a) r.1).map (fun q => (q.1, r.2 <|> q.2)))
      ++ [(i, none)]
  | f + 1, RE.starL a, i =>
    (i, none) :: ((reMatch s f a i).filter (fun r => i < r.1)).flatMap (fun r =>
      (reMatch s f (RE.starL a) r.1).map (fun q => (q.1, r.2 <|> q.2)))
  | f + 1, RE.group a, i =>
    (reMatch s f a i).map (fun r => (r.1, some (i, r.1)))

/-- Fuel bound for `reMatch`: far above the recursion depth any of the six
fixed patterns can reach on `s`. -/
def reFuel (s : List Nat) : Nat := 32 * s.length + 64

/-- Substring `s[a:b]`. -/
def reSlice (s : List Nat) (a b : Nat) : List Nat := (s.take b).drop a

/-- Non-overlapping scanning of `re.findall`: at each position try the
pattern (the priority head is Python's match), record the full match or
capture group 1, continue after a non-empty match or one position further
after an empty match or failure.  The fuel is the number of positions. -/
def reFindallAux (s : List Nat) (re : RE) (hasGroup : Bool) :
    Nat → Nat → List (List Nat)
  | 0, _ => []
  | f + 1, pos =>
    if s.length < pos then []
    else
      match (reMatch s (reFuel s) re pos).head? with
      | some r =>
        let piece := if hasGroup then
            (match r.2 with
             | some g => reSlice s g.1 g.2
             | none => [])
          else reSlice s pos r.1
        if pos < r.1 then piece :: reFindallAux s re hasGroup f r.1
        else piece :: reFindallAux s re hasGroup f (pos + 1)
      | none => reFindallAux s re hasGroup f (pos + 1)

def reFindall (s : List Nat) (re : RE) (hasGroup : Bool) : List (List Nat) :=
  reFindallAux s re hasGroup (s.length + 2) 0

/-- Single character. -/
def reChr (c : Nat) : RE := RE.pred (fun x => x == c)

/-- `.` under `re.DOTALL` (the loop passes `re.DOTALL`). -/
def reAny : RE := RE.pred (fun _ => true)

/-- Literal character sequence. -/
def reLit (cs : List Nat) : RE :=
  cs.foldr (fun c acc => RE.seq (reChr c) acc) RE.eps

/-- `x+` as `x x*`. -/
def rePlus (a : RE) : RE := RE.seq a (RE.star a)

/-- `[^)]+`. -/
def reNotRparen : RE := rePlus (RE.pred (fun c => !(c == 41)))

/-- Pattern 1, `\bT[FJ]\s*\(([^)]+)\)` (one capture group). -/
def psPat1 : RE :=
  RE.seq RE.wordB (RE.seq (reChr 84)
    (RE.seq (RE.pred (fun c => c == 70 || c == 74))
      (RE.seq (RE.star (RE.pred pySpace))
        (RE.seq (reChr 40) (RE.seq (RE.group reNotRparen) (reChr 41))))))

/-- Pattern 2, `\b\([^)]+\)\s*T[FJ]` (no capture group: `findall` yields
the full match, parentheses included). -/
def psPat2 : RE :=
  RE.seq RE.wordB (RE.seq (reChr 40)
    (RE.seq reNotRparen
      (RE.seq (reChr 41)
        (RE.seq (RE.star (RE.pred pySpace))
          (RE.seq (reChr 84) (RE.pred (fun c => c == 70 || c == 74)))))))

/-- `(?:T[FJ]|BT|ET)` with Python's left-to-right alternation priority. -/
def psOpToken : RE :=
  RE.alt (RE.seq (reChr 84) (RE.pred (fun c => c == 70 || c == 74)))
    (RE.alt (RE.seq (reChr 66) (reChr 84)) (RE.seq (reChr 69) (reChr 84)))

/-- Pattern 3, `\b(?:T[FJ]|BT|ET)\b.*?\(([^)]+)\)` (DOTALL, one group). -/
def psPat3 : RE :=
  RE.seq RE.wordB (RE.seq psOpToken (RE.seq RE.wordB
    (RE.seq (RE.starL reAny)
      (RE.seq (reChr 40) (RE.seq (RE.group reNotRparen) (reChr 41))))))

/-- Pattern 4, `\b(?:T[FJ]|BT|ET)\b[^()]*\(([^)]+)\)` (one group). -/
def psPat4 : RE :=
  RE.seq RE.wordB (RE.seq psOpToken (RE.seq RE.wordB
    (RE.seq (RE.star (RE.pred (fun c => !(c == 40) && !(c == 41))))
      (RE.seq (reChr 40) (RE.seq (RE.group reNotRparen) (reChr 41))))))

/-- Pattern 5, `\b\([^)]+\)\s+show\b` (no capture group). -/
def psPat5 : RE :=
  RE.seq RE.wordB (RE.seq (reChr 40)
    (RE.seq reNotRparen
      (RE.seq (reChr 41)
        (RE.seq (rePlus (RE.pred pySpace))
          (RE.seq (reLit [115, 104, 111, 119]) RE.wordB)))))

/-- Pattern 6, `\([^\\()]*(?:\\.[^\\()]*)*\)` (no capture group): a
PostScript string literal respecting backslash escapes. -/
def psPat6 : RE :=
  RE.seq (reChr 40)
    (RE.seq (RE.star (RE.pred (fun c => !(c == 92) && !(c == 40) && !(c == 41))))
      (RE.seq (RE.star (RE.seq (RE.seq (reChr 92) reAny)
          (RE.star (RE.pred (fun c => !(c == 92) && !(c == 40) && !(c == 41))))))
        (reChr 41)))

/-- The `patterns` list of `extract_string.convert_postscript`
(lines 92-105), with the flag recording whether `findall` returns group 1
(`true`) or the full match (`false`). -/
def psPatterns : List (RE × Bool) :=
  [(psPat1, true), (psPat2, false), (psPat3, true), (psPat4, true),
   (psPat5, false), (psPat6, false)]

/-- The `re.sub(r'\\([()\\])', r'\1', text)` pass: drop a backslash that
precedes `(`, `)` or `\\`, scanning left to right without rescanning the
replacement. -/
def psUnescape : List Nat → List Nat
  | [] => []
  | [a] => [a]
  | a :: b :: rest =>
    if a = 92 ∧ (b = 40 ∨ b = 41 ∨ b = 92) then b :: psUnescape rest
    else a :: psUnescape (b :: rest)

/-- The character scan of `extract_string.convert_postscript`
(lines 108-122): `(` outside a piece opens one (a backslash does NOT
protect a parenthesis here), `)` inside closes it and the stripped text is
kept when longer than 3 characters; the accumulator holds the current
piece reversed. -/
def psScanAux : Bool → List Nat → List Nat → List (List Nat)
  | _, _, [] => []
  | inText, cur, ch :: rest =>
    if ch = 40 ∧ inText = false then psScanAux true [] rest
    else if ch = 41 ∧ inText = true then
      (if cur ≠ [] ∧ 3 < (pyStrip cur.reverse).length
       then [pyStrip cur.reverse] else []) ++ psScanAux false [] rest
    else if inText = true then psScanAux inText (ch :: cur) rest
    else psScanAux inText cur rest

def psScan (content : List Nat) : List (List Nat) :=
  psScanAux false [] content

/-- One pattern's contribution (lines 125-144): for each match take group 1
or the full match, strip it, keep it only if longer than 3 characters, and
unescape it. -/
def psPatternPieces (content : List Nat) (pr : RE × Bool) : List (List Nat) :=
  (reFindall content pr.1 pr.2).filterMap (fun t =>
    if 3 < (pyStrip t).length then some (psUnescape (pyStrip t)) else none)

/-- `all_text`: the scan pieces followed by each pattern's pieces. -/
def psAllText (content : List Nat) : List (List Nat) :=
  psScan content ++ psPatterns.flatMap (psPatternPieces content)

/-- Duplicate removal preserving first-seen order (`seen` set plus ordered
list, lines 147-152). -/
def dedupeFirst : List (List Nat) → List (List Nat) → List (List Nat)
  | _, [] => []
  | seen, a :: rest =>
    if a ∈ seen then dedupeFirst seen rest
    else a :: dedupeFirst (a :: seen) rest

/-- Fixed message of `extract_string.convert_postscript`. -/
def PS_MSG : List Nat := strCodes ("No text content found in PostScript data.")

/-- Embedding of `extract_string.convert_postscript` (lines 87-132 and the
dedup/join tail). -/
def Scripts.convert_postscript (content : List Nat) : List Nat :=
  let unique := dedupeFirst [] (psAllText content)
  if unique.isEmpty then PS_MSG else List.intercalate [10] unique

/-- Modelled from the claim's wording (C5), for comparison with the code:
extract the substrings delimited by UNESCAPED parentheses (a
backslash-escaped character inside a substring, parenthesis included, is
literal and does not delimit), unescape backslash sequences, discard
substrings of length at most 3, deduplicate preserving first-seen order,
join with newlines, with the fixed message when nothing survives. -/
def psSpecScanAux : Bool → List Nat → List Nat → List (List Nat)
  | _, _, [] => []
  | inText, cur, 92 :: c :: rest =>
    if inText then psSpecScanAux inText (c :: 92 :: cur) rest
    else psSpecScanAux inText cur rest
  | inText, cur, ch :: rest =>
    if ch = 40 ∧ inText = false then psSpecScanAux true [] rest
    else if ch = 41 ∧ inText = true then
      cur.reverse :: psSpecScanAux false [] rest
    else if inText = true then psSpecScanAux inText (ch :: cur) rest
    else psSpecScanAux inText cur rest

def convert_postscript_claim (content : List Nat) : List Nat :=
  let pieces := ((psSpecScanAux false [] content).map psUnescape).filter
    (fun t => decide (3 < t.length))
  let unique := dedupeFirst [] pieces
  if unique.isEmpty then PS_MSG else List.intercalate [10] unique

/-- C5 counterexample: on `"(abcd)"` the claimed pipeline yields `"abcd"`,
but the code also appends the full regex match `"(abcd)"` (parentheses
included) from the string-literal pattern, producing `"abcd\n(abcd)"`;
and on `"(ab\)cdef)"` the claimed pipeline respects the escaped
parenthesis and yields `"ab)cdef"`, but the code's character scan
terminates the piece at the escaped parenthesis (discarding `"ab\"` as
too short) and the regex piece keeps its surrounding parentheses,
producing `"(ab)cdef)"`. -/
theorem claim5_counterexample :
    Scripts.convert_postscript [40, 97, 98, 99, 100, 41] =
      [97, 98, 99, 100, 10, 40, 97, 98, 99, 100, 41] ∧
    convert_postscript_claim [40, 97, 98, 99, 100, 41] = [97, 98, 99, 100] ∧
    Scripts.convert_postscript [40, 97, 98, 99, 100, 41] ≠
      convert_postscript_claim [40, 97, 98, 99, 100, 41] ∧
    Scripts.convert_postscript [40, 97, 98, 92, 41, 99, 100, 101, 102, 41] =
      [40, 97, 98, 41, 99, 100, 101, 102, 41] ∧
    convert_postscript_claim [40, 97, 98, 92, 41, 99, 100, 101, 102, 41] =
      [97, 98, 41, 99, 100, 101, 102] ∧
    Scripts.convert_postscript [40, 97, 98, 92, 41, 99, 100, 101, 102, 41] ≠
      convert_postscript_claim [40, 97, 98, 92, 41, 99, 100, 101, 102, 41] := by
  decide

theorem psUnescape_ne_nil : ∀ (l : List Nat), l ≠ [] → psUnescape l ≠ [] := by
  intro l hl
  rcases l with _ | ⟨a, _ | ⟨b, rest⟩⟩
  · exact absurd rfl hl
  · simp [psUnescape]
  · by_cases hc : a = 92 ∧ (b = 40 ∨ b = 41 ∨ b = 92)
    · simp [psUnescape, hc]
    · simp [psUnescape, hc]

theorem psScanAux_pieces :
    ∀ (content : List Nat) (inText : Bool) (cur : List Nat),
    ∀ p ∈ psScanAux inText cur content, 3 < p.length := by
  intro content
  induction content with
  | nil => intro _ _ p hp; simp [psScanAux] at hp
  | cons ch rest ih =>
    intro inText cur p hp
    simp only [psScanAux] at hp
    by_cases h1 : ch = 40 ∧ inText = false
    · rw [if_pos h1] at hp
      exact ih true [] p hp
    · rw [if_neg h1] at hp
      by_cases h2 : ch = 41 ∧ inText = true
      · rw [if_pos h2] at hp
        rcases List.mem_append.mp hp with hp | hp
        · by_cases h3 : cur ≠ [] ∧ 3 < (pyStrip cur.reverse).length
          · rw [if_pos h3] at hp
            rw [List.mem_singleton.mp hp]
            exact h3.2
          · rw [if_neg h3] at hp
            simp at hp
        · exact ih false [] p hp
      · rw [if_neg h2] at hp
        by_cases h4 : inText = true
        · rw [if_pos h4] at hp
          exact ih inText (ch :: cur) p hp
        · rw [if_neg h4] at hp
          exact ih inText cur p hp

theorem psPatternPieces_ne_nil (content : List Nat) (pr : RE × Bool) :
    ∀ p ∈ psPatternPieces content pr, p ≠ [] := by
  intro p hp
  simp only [psPatternPieces, List.mem_filterMap] at hp
  obtain ⟨t, _, ht⟩ := hp
  by_cases h3 : 3 < (pyStrip t).length
  · rw [if_pos h3] at ht
    obtain rfl := Option.some.inj ht
    apply psUnescape_ne_nil
    intro hc
    rw [hc] at h3
    simp at h3
  · rw [if_neg h3] at ht
    exact absurd ht (by simp)

theorem psAllText_ne_nil (content : List Nat) :
    ∀ p ∈ psAllText content, p ≠ [] := by
  intro p hp
  rcases List.mem_append.mp hp with hp | hp
  · have h3 := psScanAux_pieces content false [] p hp
    intro hc
    rw [hc] at h3
    simp at h3
  · obtain ⟨pr, _, hmem⟩ := List.mem_flatMap.mp hp
    exact psPatternPieces_ne_nil content pr p hmem

theorem dedupeFirst_not_mem_seen :
    ∀ (l seen : List (List Nat)) (x : List Nat),
    x ∈ dedupeFirst seen l → x ∉ seen := by
  intro l
  induction l with
  | nil => intro seen x hx; simp [dedupeFirst] at hx
  | cons a rest ih =>
    intro seen x hx
    simp only [dedupeFirst] at hx
    by_cases ha : a ∈ seen
    · rw [if_pos ha] at hx
      exact ih seen x hx
    · rw [if_neg ha] at hx
      rcases List.mem_cons.mp hx with rfl | hx
      · exact ha
      · intro hxseen
        exact ih (a :: seen) x hx (List.mem_cons_of_mem _ hxseen)

theorem dedupeFirst_nodup :
    ∀ (l seen : List (List Nat)), (dedupeFirst seen l).Nodup := by
  intro l
  induction l with
  | nil => intro seen; simp [dedupeFirst]
  | cons a rest ih =>
    intro seen
    simp only [dedupeFirst]
    by_cases ha : a ∈ seen
    · rw [if_pos ha]; exact ih seen
    · rw [if_neg ha]
      refine List.nodup_cons.mpr ⟨?_, ih (a :: seen)⟩
      intro hmem
      exact dedupeFirst_not_mem_seen rest (a :: seen) a hmem
        (List.mem_cons_self _ _)

theorem dedupeFirst_sublist :
    ∀ (l seen : List (List Nat)), List.Sublist (dedupeFirst seen l) l := by
  intro l
  induction l with
  | nil => intro seen; simp [dedupeFirst]
  | cons a rest ih =>
    intro seen
    simp only [dedupeFirst]
    by_cases ha : a ∈ seen
    · rw [if_pos ha]
      exact (ih seen).trans (List.sublist_cons_self a rest)
    · rw [if_neg ha]
      exact List.Sublist.cons₂ a (ih (a :: seen))

theorem scripts_postscript_ne_nil (content : List Nat) :
    Scripts.convert_postscript content ≠ [] := by
  have hdef : Scripts.convert_postscript content =
      if (dedupeFirst [] (psAllText content)).isEmpty then PS_MSG
      else List.intercalate [10] (dedupeFirst [] (psAllText content)) := rfl
  rw [hdef]
  by_cases hk : (dedupeFirst [] (psAllText content)).isEmpty
  · rw [if_pos hk]
    decide
  · rw [if_neg hk]
    rcases hke : dedupeFirst [] (psAllText content) with _ | ⟨l0, rest⟩
    · rw [hke] at hk; simp at hk
    · have hmem : l0 ∈ psAllText content :=
        (dedupeFirst_sublist (psAllText content) []).subset
          (by rw [hke]; exact List.mem_cons_self _ _)
      exact intercalate_cons_ne_nil [10] l0 rest (psAllText_ne_nil content l0 hmem)

/-- C5 amended: the extractor's output is the newline-join of the
duplicate-free (first occurrence kept, order preserved) list of pieces
drawn from the character scan — which does NOT treat backslash-escaped
parentheses as literal — followed by the six regex patterns' pieces (full
matches keep their parentheses; the length > 3 filter is applied before
unescaping, and only regex pieces are unescaped); when no piece survives
the output is the fixed message, and it is never the empty string. -/
theorem claim5_amended_postscript (content : List Nat) :
    (dedupeFirst [] (psAllText content) = [] →
      Scripts.convert_postscript content = PS_MSG) ∧
    (dedupeFirst [] (psAllText content) ≠ [] →
      Scripts.convert_postscript content =
        List.intercalate [10] (dedupeFirst [] (psAllText content))) ∧
    (dedupeFirst [] (psAllText content)).Nodup ∧
    List.Sublist (dedupeFirst [] (psAllText content)) (psAllText content) ∧
    (∀ p ∈ psAllText content, p ≠ []) ∧
    Scripts.convert_postscript content ≠ [] := by
  have hdef : Scripts.convert_postscript content =
      if (dedupeFirst [] (psAllText content)).isEmpty then PS_MSG
      else List.intercalate [10] (dedupeFirst [] (psAllText content)) := rfl
  refine ⟨?_, ?_, dedupeFirst_nodup _ _, dedupeFirst_sublist _ _,
    psAllText_ne_nil content, scripts_postscript_ne_nil content⟩
  · intro h
    rw [hdef, h]
    simp
  · intro h
    rw [hdef, if_neg (fun hc => h (List.isEmpty_iff.mp hc))]

/-- Witness for the amended C5 at input `"(abcd)"`: the pieces survive, so
the output is their first-seen-order deduplicated newline-join. -/
theorem claim5_amended_postscript_witness :
    Scripts.convert_postscript [40, 97, 98, 99, 100, 41] =
      List.intercalate [10]
        (dedupeFirst [] (psAllText [40, 97, 98, 99, 100, 41])) :=
  (claim5_amended_postscript [40, 97, 98, 99, 100, 41]).2.1 (by decide)

/-! ### Pipeline dispatch (extract_string.process_file) -/

/-- Embedding of `extract_string.process_file` (lines 158-186) restricted
to the conversion dispatch: classify the bytes, then call exactly one of
the three script converters (the `converters` dict covers all three tags,
so `.get`'s `convert_rawtext` default is never taken). -/
def process_file (bytes : List Nat) : List Nat :=
  match detect_format bytes with
  | Format.escpos => Scripts.convert_escpos bytes
  | Format.postscript => Scripts.convert_postscript bytes
  | Format.rawtext => Scripts.convert_rawtext bytes

/-- C9: every extractor is total over arbitrary byte input.  The dispatch
always evaluates to exactly one extractor's result; the single genuine
failure point — strict UTF-8 decoding inside the raw-text extractor — is
handled by the latin-1 fallback, which is the identity on bytes and never
fails; the PostScript extractor and the utility raw-text converter return
their fixed explanatory messages rather than nothing; the empty input and
an invalid encoding (0xFF is never valid UTF-8) yield results, not
errors. -/
theorem claim9_extractors_total (bytes : List Nat) :
    (process_file bytes = Scripts.convert_escpos bytes ∨
      process_file bytes = Scripts.convert_postscript bytes ∨
      process_file bytes = Scripts.convert_rawtext bytes) ∧
    (utf8Decode bytes = none → rawContent bytes = bytes) ∧
    Scripts.convert_postscript bytes ≠ [] ∧
    Utility.convert_rawtext bytes ≠ [] ∧
    process_file [] = Scripts.convert_rawtext [] ∧
    Scripts.convert_rawtext [] = [] ∧
    Scripts.convert_postscript [] = PS_MSG ∧
    utf8Decode [255] = none ∧
    Scripts.convert_rawtext [255] = [] := by
  refine ⟨?_, ?_, scripts_postscript_ne_nil bytes, utility_rawtext_ne_nil bytes,
    by decide, by decide, by decide, by decide, by decide⟩
  · cases h : detect_format bytes with
    | escpos => exact Or.inl (by simp [process_file, h])
    | postscript => exact Or.inr (Or.inl (by simp [process_file, h]))
    | rawtext => exact Or.inr (Or.inr (by simp [process_file, h]))
  · intro h
    simp [rawContent, h]

/-- Witness for C9: the invalid-UTF-8 byte 0xFF falls back to the latin-1
identity. -/
theorem claim9_extractors_total_witness : rawContent [255] = [255] :=
  (claim9_extractors_total [255]).2.1 (by decide)
